import Mathlib

/-!
Verification development for a tree-walking interpreter (lexer/parser/evaluator
for a small dynamically-typed language, written in Go).  The definitions below
are a shallow embedding of the Go source:

  * `src/token/token.go`        — token kinds (only needed indirectly here)
  * `src/ast/ast.go`            — AST node types
  * `src/unnamed/part_000`      — package parser (Pratt parser)
  * `src/unnamed/part_001`      — package evaluator (tree walker)
  * `src/evaluator/builtins.go` — builtins table and package object (value model)

Go `int64` values are embedded as `Int` together with an explicit two's
complement wrap (`wrap64`) at every operation where Go overflow semantics
matter; Go `uint64` values are embedded as `Nat` (reduced mod 2^64 where they
are produced).  Go interface values that may be `nil` are embedded as
`Option Object` (`none` = Go `nil`).  Go runtime panics (nil dereference,
index out of range, integer divide by zero) are embedded as an explicit
`panicked` outcome.  `object.Environment` (file `object/environment.go`) is
not part of the provided sources; it is modelled from the spec, see `Env`
below.
-/

namespace Interp

/-- Go `object.Type` string constants (object.go). -/
def INTEGER_OBJ : String := "INTEGER"

def BOOLEAN_OBJ : String := "BOOLEAN"

def STRING_OBJ : String := "STRING"

def ARRAY_OBJ : String := "ARRAY"

def HASH_OBJ : String := "HASH"

def NULL_OBJ : String := "NULL"

def RETURN_VALUE_OBJ : String := "RETURN_VALUE"

def ERROR_OBJ : String := "ERROR"

def FUNCTION_OBJ : String := "FUNCTION"

def BUILTIN_OBJ : String := "BUILTIN"

/-- Go `object.HashKey` (object.go): a type tag together with a `uint64`
identifier, embedded as a `Nat` (the evaluator only ever stores values
< 2^64 in it). -/
structure HashKey where
  type : String
  value : Nat
deriving DecidableEq

/-!  The AST (src/ast/ast.go), restricted to the node shapes the parser
actually constructs.  `*ast.Identifier` lists (function parameters) are
embedded as their `Value` strings, which is exactly what the evaluator
consumes (`param.String()` is the identifier's `Value`).  A
`*ast.BlockStatement` is embedded as its list of statements.

`*ast.HashLiteral` stores its pairs in a Go map
`map[ast.Expression]ast.Expression`; every parsed pair is present in that map
(each key expression is a distinct freshly-allocated node, so source
duplicates do not collide), but the map does not retain the source order and
Go iterates it in an unspecified order.  The embedding keeps the pairs as a
list; whenever iteration order matters the evaluation function below is
explicitly parameterised by the order (see `evalHashPairs`). -/

mutual

inductive Expr where
  | ident (name : String)
  | intLit (value : Int)
  | strLit (value : String)
  | boolLit (value : Bool)
  | arrayLit (elements : List Expr)
  | indexE (left index : Expr)
  | hashLit (pairs : List (Expr × Expr))
  | prefixE (op : String) (right : Expr)
  | infixE (op : String) (left right : Expr)
  | ifE (cond : Expr) (conseq : List Stmt) (alt : Option (List Stmt))
  | fnLit (params : List String) (body : List Stmt)
  | callE (function : Expr) (args : List Expr)

inductive Stmt where
  | letS (name : String) (value : Expr)
  | returnS (value : Expr)
  | exprS (e : Expr)

end

/-- Go `object.Object` (object.go): the closed set of runtime value variants.
A `*object.Function` holds its captured `*object.Environment`, embedded below
as a list of frames (innermost first), each frame a list of
(name, stored value) entries where the stored value may be the Go `nil`
interface (`Environment.Set` is called with the raw result of `Eval`, which
can be `nil`).  A `*object.Hash` holds `map[HashKey]HashPair`, embedded as an
association list with unique `HashKey`s (insertion below replaces an existing
key); an entry is (hash key, original key object, value).  `ReturnValue`,
array elements and hash pair values hold whatever `Eval` produced, which can
be the `nil` interface, hence `Option Object` there.  A
`*object.Builtin` holds a native Go closure; the closures in the builtins
table are identified here by their table name and dispatched by
`applyBuiltin`. -/
inductive Object where
  | IntegerO (value : Int)
  | BooleanO (value : Bool)
  | StringO (value : String)
  | NullO
  | ReturnValueO (value : Option Object)
  | ErrorO (message : String)
  | FunctionO (params : List String) (body : List Stmt)
      (env : List (List (String × Option Object)))
  | BuiltinO (name : String)
  | ArrayO (elements : List (Option Object))
  | HashO (pairs : List (HashKey × Object × Option Object))

/-- One environment frame: the Go `map[string]Object` store of one
`object.Environment` (association list; `Set` below keeps names unique). -/
abbrev Frame := List (String × Option Object)

/-- Modelled from the spec: `object.Environment` (object/environment.go is
not among the provided sources).  Per spec §3, an environment is a mapping
from name to value plus an optional outer environment; lookups walk outward,
writes always target the innermost frame.  Embedded as the chain of frames,
innermost first; `NewEnclosedEnvironment` conses a fresh empty frame. -/
abbrev Env := List Frame

/-- `Environment.Get` on a single store (Go map lookup). -/
def frameGet : Frame → String → Option (Option Object)
  | [], _ => none
  | (m, v) :: rest, n => if m = n then some v else frameGet rest n

/-- Go map assignment `store[name] = val`: replace an existing entry,
otherwise append. -/
def frameSet : Frame → String → Option Object → Frame
  | [], n, v => [(n, v)]
  | (m, w) :: rest, n, v =>
      if m = n then (m, v) :: rest else (m, w) :: frameSet rest n v

/-- Modelled from the spec: `Environment.Get` walks the chain outward until
the name is found. -/
def envGet : Env → String → Option (Option Object)
  | [], _ => none
  | f :: outer, n =>
      match frameGet f n with
      | some v => some v
      | none => envGet outer n

/-- Modelled from the spec: `Environment.Set` writes to the innermost frame. -/
def envSet : Env → String → Option Object → Env
  | [], n, v => [[(n, v)]]
  | f :: outer, n, v => frameSet f n v :: outer

/-- `object.NewEnvironment()`: a root environment with an empty store. -/
def newEnvironment : Env := [[]]

/-- Go `Object.Type()` (object.go). -/
def Object.typeStr : Object → String
  | .IntegerO _ => INTEGER_OBJ
  | .BooleanO _ => BOOLEAN_OBJ
  | .StringO _ => STRING_OBJ
  | .NullO => NULL_OBJ
  | .ReturnValueO _ => RETURN_VALUE_OBJ
  | .ErrorO _ => ERROR_OBJ
  | .FunctionO _ _ _ => FUNCTION_OBJ
  | .BuiltinO _ => BUILTIN_OBJ
  | .ArrayO _ => ARRAY_OBJ
  | .HashO _ => HASH_OBJ

/-- The canonical singletons `NULL`, `TRUE`, `FALSE` of the evaluator
(part_001).  Every `Boolean`/`Null` object the evaluator produces is one of
these, so Go pointer comparisons against them coincide with the structural
matches used below. -/
def NULL : Object := .NullO

def TRUE : Object := .BooleanO true

def FALSE : Object := .BooleanO false

/-- `nativeBoolToBooleanObject` (part_001). -/
def nativeBoolToBooleanObject (input : Bool) : Object :=
  if input then TRUE else FALSE

/-- `isError` (part_001); `none` is the Go `nil` interface, for which
`isError` returns false. -/
def isError : Option Object → Bool
  | some (.ErrorO _) => true
  | _ => false

/-- `isTruthy` (part_001): switches on pointer identity with the singletons;
a Go `nil` result (possible for a call of a function whose body ends in a
`let`) hits the default branch and counts as truthy. -/
def isTruthy : Option Object → Bool
  | some (.BooleanO true) => true
  | some (.BooleanO false) => false
  | some .NullO => false
  | _ => true

/-- Two's complement wrap of a mathematical integer into the Go `int64`
range [-2^63, 2^63): this is the value a Go `int64` arithmetic operation
produces when its mathematical result is the argument. -/
def wrap64 (x : Int) : Int := (x + 2 ^ 63) % 2 ^ 64 - 2 ^ 63

/-- Result of a Go function returning `object.Object`.  `done r` is a normal
return (`r = none` is the Go `nil` interface); `panicked` is a Go runtime
panic (nil pointer dereference, index out of range, integer divide by zero,
or a failed type assertion); `fuelOut` is an artifact of the embedding's
recursion fuel and corresponds to no Go behaviour. -/
inductive ROutcome where
  | done (r : Option Object)
  | panicked
  | fuelOut
deriving Inhabited

/-- Result of a Go function returning `object.Object` while possibly having
mutated the current environment (the embedding threads the environment
explicitly where Go mutates it in place). -/
inductive Outcome where
  | done (r : Option Object) (env : Env)
  | panicked
  | fuelOut
deriving Inhabited

/-- Result of `evalExpressions` (a `[]object.Object` plus the threaded
environment). -/
inductive ListOutcome where
  | ldone (objs : List (Option Object)) (env : Env)
  | panicked
  | fuelOut
deriving Inhabited

/-- FNV-1a 64-bit offset basis (Go hash/fnv). -/
def fnvOffsetBasis : Nat := 14695981039346656037

/-- FNV-1a 64-bit prime (Go hash/fnv). -/
def fnvPrime : Nat := 1099511628211

/-- One step of `fnv.sum64a.Write`: xor in the byte, multiply by the prime
in `uint64` arithmetic. -/
def fnv1aStep (h b : Nat) : Nat := ((h ^^^ b) * fnvPrime) % 2 ^ 64

/-- FNV-1a 64-bit hash of a byte sequence (Go hash/fnv, used by
`String.HashKey`). -/
def fnv1a64 (bytes : List Nat) : Nat := bytes.foldl fnv1aStep fnvOffsetBasis

/-- `String.HashKey`'s 64-bit identifier: the FNV-1a 64 hash of the string's
UTF-8 bytes (`[]byte(s.Value)` in Go is the UTF-8 encoding). -/
def stringFnv (s : String) : Nat :=
  fnv1a64 (s.toUTF8.toList.map UInt8.toNat)

/-- The `object.Hashable` interface: `HashKey()` for Integer (value
unsigned-widened to `uint64`), Boolean (1/0) and String (FNV-1a 64 of the
bytes); `none` for every other variant (the type assertion
`key.(object.Hashable)` fails). -/
def hashKeyOf : Object → Option HashKey
  | .IntegerO v => some ⟨INTEGER_OBJ, (v % 2 ^ 64).toNat⟩
  | .BooleanO b => some ⟨BOOLEAN_OBJ, if b then 1 else 0⟩
  | .StringO s => some ⟨STRING_OBJ, stringFnv s⟩
  | _ => none

/-- Lookup in a `*object.Hash`'s pair map (`hashObject.Pairs[key.HashKey()]`);
the entry is (original key, value). -/
def hashFind : List (HashKey × Object × Option Object) → HashKey →
    Option (Object × Option Object)
  | [], _ => none
  | (k, p) :: rest, hk => if k = hk then some p else hashFind rest hk

/-- Go map assignment `pairs[hashed] = HashPair{Key: key, Value: value}`:
replace the entry with this hash key if present, otherwise append. -/
def hashInsert : List (HashKey × Object × Option Object) → HashKey → Object → Option Object →
    List (HashKey × Object × Option Object)
  | [], hk, k, v => [(hk, k, v)]
  | (k0, p) :: rest, hk, k, v =>
      if k0 = hk then (k0, k, v) :: rest else (k0, p) :: hashInsert rest hk k v

/-- `evalBongOperatorExpression` (part_001, the `!` operator): switches on
pointer identity with the singletons; everything else — a Go `nil` operand
included — falls to the default branch `FALSE`. -/
def evalBongOperatorExpression : Option Object → Object
  | some (.BooleanO true) => FALSE
  | some (.BooleanO false) => TRUE
  | some .NullO => TRUE
  | _ => FALSE

/-- `evalMinusPrefixOperatorExpression` (part_001).  Note the Go code checks
`right == nil` but then builds the error message with `right.Type()`, which
dereferences the nil interface and panics; a `nil` operand therefore
panics here. -/
def evalMinusPrefixOperatorExpression : Option Object → ROutcome
  | none => .panicked
  | some (.IntegerO v) => .done (some (.IntegerO (wrap64 (-v))))
  | some o => .done (some (.ErrorO ("未知的操作: -" ++ o.typeStr)))

/-- `evalPrefixExpression` (part_001).  The default branch's error message
calls `right.Type()`, so a `nil` operand panics there. -/
def evalPrefixExpression (operator : String) (right : Option Object) : ROutcome :=
  if operator = "!" then .done (some (evalBongOperatorExpression right))
  else if operator = "-" then evalMinusPrefixOperatorExpression right
  else
    match right with
    | some r => .done (some (.ErrorO ("未知的操作: " ++ operator ++ r.typeStr)))
    | none => .panicked

/-- `evalIntegerInfixExpression` (part_001).  Both operands have already been
type-checked by the caller; Go `int64` arithmetic wraps (`wrap64`), `/` is
Go integer division: truncation toward zero, panicking on a zero divisor
(and `MinInt64 / -1` wraps back to `MinInt64`, which `wrap64 ∘ Int.tdiv`
reproduces). -/
def evalIntegerInfixExpression (operator : String) (left right : Object) : ROutcome :=
  match left, right with
  | .IntegerO leftVal, .IntegerO rightVal =>
    if operator = "+" then .done (some (.IntegerO (wrap64 (leftVal + rightVal))))
    else if operator = "-" then .done (some (.IntegerO (wrap64 (leftVal - rightVal))))
    else if operator = "*" then .done (some (.IntegerO (wrap64 (leftVal * rightVal))))
    else if operator = "/" then
      if rightVal = 0 then .panicked
      else .done (some (.IntegerO (wrap64 (Int.tdiv leftVal rightVal))))
    else if operator = ">" then .done (some (nativeBoolToBooleanObject (leftVal > rightVal)))
    else if operator = "<" then .done (some (nativeBoolToBooleanObject (leftVal < rightVal)))
    else if operator = "==" then .done (some (nativeBoolToBooleanObject (leftVal = rightVal)))
    else if operator = "!=" then .done (some (nativeBoolToBooleanObject (leftVal ≠ rightVal)))
    else .done (some (.ErrorO ("未知的操作: " ++ left.typeStr ++ " " ++ operator ++ " " ++ right.typeStr)))
  | _, _ => .panicked

/-- `evalStringInfixExpression` (part_001): only `+` (concatenation) is
defined on two strings. -/
def evalStringInfixExpression (operator : String) (left right : Object) : ROutcome :=
  if operator ≠ "+" then
    .done (some (.ErrorO ("未知的操作: " ++ left.typeStr ++ " " ++ operator ++ " " ++ right.typeStr)))
  else
    match left, right with
    | .StringO leftVal, .StringO rightVal => .done (some (.StringO (leftVal ++ rightVal)))
    | _, _ => .panicked

/-- The Go pointer comparison `left == right` in `evalInfixExpression`'s
`==`/`!=` branches.  Operands reaching those branches that are Booleans or
Null are the canonical singletons, for which pointer equality is exactly the
structural equality used here; operands of any other variant are distinct
freshly-allocated objects whenever they come from distinct evaluations, which
is the `false` returned here (Go would also answer `true` for two aliases of
one object, an identity distinction a value embedding cannot express; no
claim below depends on it). -/
def ptrEq : Option Object → Option Object → Bool
  | some (.BooleanO a), some (.BooleanO b) => a == b
  | some .NullO, some .NullO => true
  | none, none => true
  | _, _ => false

/-- `evalInfixExpression` (part_001).  The guard of the first case evaluates
`left.Type()` (and, when `left` is an Integer, `right.Type()`), the guard of
the second evaluates `right.Type()` when `left` is a String, and the
type-mismatch guard evaluates both; a Go `nil` on the dereferenced side
panics at the corresponding point.  The `==`/`!=` branches compare interface
pointers and never dereference. -/
def evalInfixExpression (operator : String) (left right : Option Object) : ROutcome :=
  match left with
  | none => .panicked
  | some l =>
    match right with
    | none =>
      if l.typeStr = INTEGER_OBJ then .panicked
      else if l.typeStr = STRING_OBJ then .panicked
      else if operator = "==" then .done (some (nativeBoolToBooleanObject (ptrEq left right)))
      else if operator = "!=" then .done (some (nativeBoolToBooleanObject (! ptrEq left right)))
      else .panicked
    | some r =>
      if l.typeStr = INTEGER_OBJ ∧ r.typeStr = INTEGER_OBJ then
        evalIntegerInfixExpression operator l r
      else if l.typeStr = STRING_OBJ ∧ r.typeStr = STRING_OBJ then
        evalStringInfixExpression operator l r
      else if operator = "==" then .done (some (nativeBoolToBooleanObject (ptrEq left right)))
      else if operator = "!=" then .done (some (nativeBoolToBooleanObject (! ptrEq left right)))
      else if l.typeStr ≠ r.typeStr then
        .done (some (.ErrorO ("类型不匹配: " ++ l.typeStr ++ " " ++ operator ++ " " ++ r.typeStr)))
      else
        .done (some (.ErrorO ("未知的操作: " ++ l.typeStr ++ " " ++ operator ++ " " ++ r.typeStr)))

/-- `evalArrayIndexExpression` (part_001).  The bounds check compares the
`int64` index against `int64(len(elements) - 1)`; inside the bounds the Go
slice access `arrayObject.Elements[idx]` is embedded as a checked access
that panics out of range (the theorems show the guard makes that
unreachable).  A failed type assertion on either argument panics (the
caller's dispatch makes that unreachable too). -/
def evalArrayIndexExpression (array index : Object) : ROutcome :=
  match array, index with
  | .ArrayO elements, .IntegerO idx =>
    let max : Int := (elements.length : Int) - 1
    if idx < 0 ∨ idx > max then .done (some NULL)
    else
      match elements.get? idx.toNat with
      | some v => .done v
      | none => .panicked
  | _, _ => .panicked

/-- `evalHashIndexExpression` (part_001).  A non-hashable index yields an
error; the error message calls `index.Type()`, so a `nil` index panics.  A
missing key yields `NULL`. -/
def evalHashIndexExpression (hash : Object) (index : Option Object) : ROutcome :=
  match hash with
  | .HashO pairs =>
    match index with
    | none => .panicked
    | some key =>
      match hashKeyOf key with
      | none => .done (some (.ErrorO ("无法作为哈希的键, " ++ key.typeStr)))
      | some hk =>
        match hashFind pairs hk with
        | none => .done (some NULL)
        | some p => .done p.2
  | _ => .panicked

/-- `evalIndexExpression` (part_001): dispatch on the operand types.  The
first guard dereferences `left` (and `index` only when `left` is an Array);
the default error message also dereferences `left`. -/
def evalIndexExpression (left index : Option Object) : ROutcome :=
  match left with
  | none => .panicked
  | some l =>
    if l.typeStr = ARRAY_OBJ then
      match index with
      | none => .panicked
      | some i =>
        if i.typeStr = INTEGER_OBJ then evalArrayIndexExpression l i
        else .done (some (.ErrorO ("不支持访问索引, " ++ l.typeStr)))
    else if l.typeStr = HASH_OBJ then evalHashIndexExpression l index
    else .done (some (.ErrorO ("不支持访问索引, " ++ l.typeStr)))

/-!  The builtins table (src/evaluator/builtins.go).  Each Go closure takes
`args ...object.Object`; an argument may be the `nil` interface (the raw
result of evaluating an argument expression), on which every `Type()` or
`Inspect()` call panics.  Note that the type-violation messages of `last`,
`rest` and `push` all name `first` — that is what the source says. -/

/-- The arity-violation message shared by the builtins
(`入参数量不正确，需要%d个，实际%d个`). -/
def wrongArgCount (want got : Nat) : Object :=
  .ErrorO ("入参数量不正确，需要" ++ toString want ++ "个，实际" ++ toString got ++ "个")

/-- The `len` builtin: byte length of a string, element count of an array. -/
def lenB : List (Option Object) → ROutcome
  | [some (.StringO s)] => .done (some (.IntegerO (s.utf8ByteSize : Int)))
  | [some (.ArrayO elements)] => .done (some (.IntegerO (elements.length : Int)))
  | [some arg] => .done (some (.ErrorO ("len不支持的参数类型，" ++ arg.typeStr)))
  | [none] => .panicked
  | args => .done (some (wrongArgCount 1 args.length))

/-- The `first` builtin. -/
def firstB : List (Option Object) → ROutcome
  | [some (.ArrayO elements)] =>
      match elements.head? with
      | some v => .done v
      | none => .done (some NULL)
  | [some arg] => .done (some (.ErrorO ("first不支持的参数类型，" ++ arg.typeStr)))
  | [none] => .panicked
  | args => .done (some (wrongArgCount 1 args.length))

/-- The `last` builtin.  Its type-violation message names `first` (sic,
builtins.go line 45). -/
def lastB : List (Option Object) → ROutcome
  | [some (.ArrayO elements)] =>
      match elements.getLast? with
      | some v => .done v
      | none => .done (some NULL)
  | [some arg] => .done (some (.ErrorO ("first不支持的参数类型，" ++ arg.typeStr)))
  | [none] => .panicked
  | args => .done (some (wrongArgCount 1 args.length))

/-- The `rest` builtin: a fresh array of all but the first element.  Its
type-violation message names `first` (sic, builtins.go line 62). -/
def restB : List (Option Object) → ROutcome
  | [some (.ArrayO elements)] =>
      match elements with
      | _ :: tail => .done (some (.ArrayO tail))
      | [] => .done (some NULL)
  | [some arg] => .done (some (.ErrorO ("first不支持的参数类型，" ++ arg.typeStr)))
  | [none] => .panicked
  | args => .done (some (wrongArgCount 1 args.length))

/-- The `push` builtin: a fresh array with the element appended.  Its
type-violation message names `first` (sic, builtins.go line 80).  The pushed
second argument is stored as given (a `nil` is stored without dereference). -/
def pushB : List (Option Object) → ROutcome
  | [some (.ArrayO elements), x] => .done (some (.ArrayO (elements ++ [x])))
  | [some arg, _] => .done (some (.ErrorO ("first不支持的参数类型，" ++ arg.typeStr)))
  | [none, _] => .panicked
  | args => .done (some (wrongArgCount 2 args.length))

/-- The `puts` builtin: prints each argument's `Inspect()` (output is not
modelled) and returns `NULL`; `Inspect()` on a `nil` argument panics. -/
def putsB (args : List (Option Object)) : ROutcome :=
  if args.all (fun a => a.isSome) then .done (some NULL) else .panicked

/-- Names present in the `builtins` table. -/
def isBuiltinName (n : String) : Bool :=
  n = "len" ∨ n = "first" ∨ n = "last" ∨ n = "rest" ∨ n = "push" ∨ n = "puts"

/-- Dispatch of `fn.Fn(args...)` for a `*object.Builtin` by its table name.
`BuiltinO` objects are only ever constructed by `evalIdentifier` for names in
the table, so the final catch-all is unreachable. -/
def applyBuiltin (name : String) (args : List (Option Object)) : ROutcome :=
  if name = "len" then lenB args
  else if name = "first" then firstB args
  else if name = "last" then lastB args
  else if name = "rest" then restB args
  else if name = "push" then pushB args
  else if name = "puts" then putsB args
  else .done (some NULL)

/-- `evalIdentifier` (part_001): environment chain first, then the builtins
table, else the undefined-variable error.  The value found in the
environment may be the stored Go `nil`. -/
def evalIdentifier (name : String) (env : Env) : Option Object :=
  match envGet env name with
  | some val => val
  | none =>
      if isBuiltinName name then some (.BuiltinO name)
      else some (.ErrorO ("变量未定义: " ++ name))

/-- The loop of `extendFunctionEnv` (part_001):
`for paramIdx, param := range fn.Parameters { env.Set(param.String(), args[paramIdx]) }`.
All `Set`s hit the innermost (fresh) frame, so the loop is carried out on
that frame alone.  `args[paramIdx]` is an unchecked Go slice access:
when the index is out of range — fewer arguments than parameters — it
panics, embedded as `none`. -/
def bindParams (args : List (Option Object)) : Frame → List String → Nat → Option Frame
  | f, [], _ => some f
  | f, p :: rest, paramIdx =>
      match args.get? paramIdx with
      | some a => bindParams args (frameSet f p a) rest (paramIdx + 1)
      | none => none

/-- `extendFunctionEnv` (part_001): `NewEnclosedEnvironment(fn.Env)` conses a
fresh empty frame onto the captured environment, then the parameters are
bound positionally; `none` is the index-out-of-range panic. -/
def extendFunctionEnv (params : List String) (fnEnv : Env) (args : List (Option Object)) :
    Option Env :=
  (bindParams args [] params 0).map (· :: fnEnv)

/-- `unwrapReturnValue` (part_001). -/
def unwrapReturnValue : Option Object → Option Object
  | some (.ReturnValueO v) => v
  | obj => obj

/-!  Model of `strconv.ParseInt(lexeme, 0, 64)` as called by
`parseIntegerLiteral` (part_000, line 198), restricted to the lexemes an
`INT` token can carry: per the spec's lexer (`[0-9]+`), a non-empty string
of decimal digits.  With base argument 0, Go infers the base from the
lexeme: a leading `0` followed by more characters selects base 8 (the
`0b`/`0o`/`0x` prefixes and signs cannot occur in a digit-only lexeme),
otherwise base 10.  `ParseUint`'s digit loop rejects a digit ≥ the base and
guards against `uint64` overflow with a cutoff check; `ParseInt` then
rejects magnitudes ≥ 2^63.  The parser treats any error alike, so the model
returns `none` for both syntax and range errors. -/

/-- Digit value of a character for the given base: strconv's
`'0' <= c && c <= '9': d = c - '0'` on the byte (48 and 57 are the bytes of
`'0'` and `'9'`; only decimal digit characters can occur in an `INT`
lexeme), then the `d >= base` rejection. -/
def digitVal (base : Nat) (c : Char) : Option Nat :=
  if 48 ≤ c.toNat ∧ c.toNat ≤ 57 then
    if c.toNat - 48 < base then some (c.toNat - 48) else none
  else none

/-- Whether strconv accepts the character as a digit of the given base. -/
def validDigit (base : Nat) (c : Char) : Bool :=
  (digitVal base c).isSome

/-- The mathematical reading of a digit string in the given base (the value
`strconv`'s loop computes when nothing overflows). -/
def natOfDigits (base : Nat) (l : List Char) : Nat :=
  l.foldl (fun a c => a * base + (c.toNat - 48)) 0

/-- The digit loop of Go `strconv.ParseUint` (with `maxVal = 2^64 - 1`):
`n >= cutoff` means `n * base` would overflow `uint64`; `n1 > maxVal`
(together with Go's wraparound check `n1 < n`) means the new accumulator
does not fit. -/
def parseUintLoop (base : Nat) : List Char → Nat → Option Nat
  | [], n => some n
  | c :: cs, n =>
      match digitVal base c with
      | none => none
      | some d =>
          if n ≥ (2 ^ 64 - 1) / base + 1 then none
          else
            let n1 := n * base + d
            if n1 > 2 ^ 64 - 1 then none
            else parseUintLoop base cs n1

/-- `strconv.ParseInt(s, 0, 64)` on a non-empty decimal-digit lexeme:
base inference, the `ParseUint` digit loop, then the signed range check
(`un >= 1<<63` is a range error for a non-negative input). -/
def goParseInt0 (s : String) : Option Int :=
  match s.data with
  | [] => none
  | c :: cs =>
      let (base, digits) :=
        if c = '0' ∧ cs ≠ [] then (8, cs) else (10, c :: cs)
      match parseUintLoop base digits 0 with
      | some n => if n ≥ 2 ^ 63 then none else some (n : Int)
      | none => none

/-- `parseIntegerLiteral` (part_000): on a parse error the message
`无法解析 %q 为数字` is recorded (with the lexeme quoted; no escaping is
needed in a digit-only lexeme) and no expression is produced. -/
def parseIntegerLiteral (lexeme : String) : Option Expr × List String :=
  match goParseInt0 lexeme with
  | some value => (some (.intLit value), [])
  | none => (none, ["无法解析 \"" ++ lexeme ++ "\" 为数字"])

/-- Lift the outcome of an environment-independent Go call back into the
environment-threaded result of its caller. -/
def liftR : ROutcome → Env → Outcome
  | .done r, env => .done r env
  | .panicked, _ => .panicked
  | .fuelOut, _ => .fuelOut

/-- The caller-side check `len(objs) == 1 && isError(objs[0])` after
`evalExpressions`: the single propagated error, if that is what the list
is. -/
def firstIfSingleError : List (Option Object) → Option (Option Object)
  | [o] => if isError o then some o else none
  | _ => none

/-- The ubiquitous Go sequencing pattern `x := Eval(...); if isError(x)
{ return x }; ...continue with x...` (propagating a panic or fuel
exhaustion). -/
def Outcome.andThen : Outcome → (Option Object → Env → Outcome) → Outcome
  | .done r env, f => if isError r then .done r env else f r env
  | .panicked, _ => .panicked
  | .fuelOut, _ => .fuelOut

/-- Plain sequencing of a Go call's result (no error check at this point in
the source). -/
def Outcome.step : Outcome → (Option Object → Env → Outcome) → Outcome
  | .done r env, f => f r env
  | .panicked, _ => .panicked
  | .fuelOut, _ => .fuelOut

/-- Plain sequencing, with the continuation producing an expression list's
result. -/
def Outcome.stepL : Outcome → (Option Object → Env → ListOutcome) → ListOutcome
  | .done r env, f => f r env
  | .panicked, _ => .panicked
  | .fuelOut, _ => .fuelOut

/-- Sequencing after `evalExpressions`. -/
def ListOutcome.stepO : ListOutcome → (List (Option Object) → Env → Outcome) → Outcome
  | .ldone objs env, f => f objs env
  | .panicked, _ => .panicked
  | .fuelOut, _ => .fuelOut

/-- Sequencing after `evalExpressions`, staying in list results. -/
def ListOutcome.stepL : ListOutcome → (List (Option Object) → Env → ListOutcome) → ListOutcome
  | .ldone objs env, f => f objs env
  | .panicked, _ => .panicked
  | .fuelOut, _ => .fuelOut

/-- Sequencing of a body evaluation inside `applyFunction` (which returns to
its caller without the callee's environment). -/
def Outcome.toR : Outcome → (Option Object → ROutcome) → ROutcome
  | .done r _, f => f r
  | .panicked, _ => .panicked
  | .fuelOut, _ => .fuelOut

/-- The short-circuit test of `evalBlockStatement`: a non-nil result whose
`Type()` is `RETURN_VALUE_OBJ` or `ERROR_OBJ`. -/
def isReturnOrError : Option Object → Bool
  | some (.ReturnValueO _) => true
  | some (.ErrorO _) => true
  | _ => false

/-!  `Eval` (part_001) and its helpers, as one mutual recursion.  Go's
recursion is through the heap (a call evaluates a body stored in a
`*object.Function`), so the embedding carries a fuel counter that is spent
exactly at function application — every other recursive call is structural
on the AST.  `fuelOut` marks exhaustion and corresponds to no Go behaviour
(for every terminating Go evaluation some fuel suffices).  Where Go mutates
the current `*object.Environment` in place, the embedding threads the
updated environment; a function value's captured environment is the
snapshot at capture time, which agrees with Go up to the aliasing of later
in-place writes to enclosing scopes (no claim below depends on observing
such a write through a previously captured closure). -/

mutual

/-- `Eval` (part_001) on expression nodes. -/
def evalExpr (fuel : Nat) (e : Expr) (env : Env) : Outcome :=
  match e with
  | .intLit value => .done (some (.IntegerO value)) env
  | .strLit value => .done (some (.StringO value)) env
  | .boolLit value => .done (some (nativeBoolToBooleanObject value)) env
  | .ident name => .done (evalIdentifier name env) env
  | .prefixE op right =>
      (evalExpr fuel right env).andThen fun r env₁ =>
        liftR (evalPrefixExpression op r) env₁
  | .infixE op left right =>
      (evalExpr fuel left env).andThen fun l env₁ =>
        (evalExpr fuel right env₁).andThen fun r env₂ =>
          liftR (evalInfixExpression op l r) env₂
  | .ifE cond conseq alt =>
      (evalExpr fuel cond env).andThen fun c env₁ =>
        if isTruthy c then evalBlockStmts fuel conseq none env₁
        else
          match alt with
          | some altBlock => evalBlockStmts fuel altBlock none env₁
          | none => .done (some NULL) env₁
  | .arrayLit elems =>
      (evalExprList fuel elems env).stepO fun elements env₁ =>
        match firstIfSingleError elements with
        | some err => .done err env₁
        | none => .done (some (.ArrayO elements)) env₁
  | .indexE left index =>
      (evalExpr fuel left env).andThen fun l env₁ =>
        (evalExpr fuel index env₁).andThen fun i env₂ =>
          liftR (evalIndexExpression l i) env₂
  | .hashLit pairs => evalHashPairs fuel pairs env []
  | .fnLit params body => .done (some (.FunctionO params body env)) env
  | .callE function argEs =>
      (evalExpr fuel function env).andThen fun fv env₁ =>
        (evalExprList fuel argEs env₁).stepO fun args env₂ =>
          match firstIfSingleError args with
          | some err => .done err env₂
          | none => liftR (applyFunction fuel fv args) env₂
termination_by (fuel, sizeOf e)

/-- `Eval` (part_001) on statement nodes.  A `let` whose value is not an
error binds it (the bound value may be the Go `nil`) and falls out of the
switch, returning `nil`. -/
def evalStmt (fuel : Nat) (s : Stmt) (env : Env) : Outcome :=
  match s with
  | .letS name value =>
      (evalExpr fuel value env).andThen fun val env₁ =>
        .done none (envSet env₁ name val)
  | .returnS value =>
      (evalExpr fuel value env).andThen fun val env₁ =>
        .done (some (.ReturnValueO val)) env₁
  | .exprS e => evalExpr fuel e env
termination_by (fuel, sizeOf s)

/-- `evalBlockStatement` (part_001): the `result` argument is the Go local
variable (initially `nil`); a non-nil result whose type is `RETURN_VALUE`
or `ERROR` is returned *still wrapped*. -/
def evalBlockStmts (fuel : Nat) (stmts : List Stmt) (result : Option Object) (env : Env) :
    Outcome :=
  match stmts with
  | [] => .done result env
  | s :: rest =>
      (evalStmt fuel s env).step fun r env₁ =>
        if isReturnOrError r then .done r env₁
        else evalBlockStmts fuel rest r env₁
termination_by (fuel, sizeOf stmts)

/-- `evalExpressions` (part_001): left-to-right, short-circuiting to the
single-error list. -/
def evalExprList (fuel : Nat) (es : List Expr) (env : Env) : ListOutcome :=
  match es with
  | [] => .ldone [] env
  | e :: rest =>
      (evalExpr fuel e env).stepL fun evaluated env₁ =>
        if isError evaluated then .ldone [evaluated] env₁
        else
          (evalExprList fuel rest env₁).stepL fun vs env₂ =>
            .ldone (evaluated :: vs) env₂
termination_by (fuel, sizeOf es)

/-- `evalHashLiteral` (part_001), parameterised by the iteration order of
the Go pair map: `pairs` is the sequence of key/value expression pairs in
the order `range node.Pairs` yields them, and `acc` is the
`map[HashKey]HashPair` built so far.  Each evaluated pair overwrites any
earlier entry with an equal `HashKey` (`hashInsert`).  A nil key panics
(the unhashable-key message calls `key.Type()`). -/
def evalHashPairs (fuel : Nat) (pairs : List (Expr × Expr)) (env : Env)
    (acc : List (HashKey × Object × Option Object)) : Outcome :=
  match pairs with
  | [] => .done (some (.HashO acc)) env
  | (keyNode, valueNode) :: rest =>
      (evalExpr fuel keyNode env).andThen fun key env₁ =>
        match key with
        | none => .panicked
        | some k =>
            match hashKeyOf k with
            | none => .done (some (.ErrorO ("无法作为哈希的键, " ++ k.typeStr))) env₁
            | some hashed =>
                (evalExpr fuel valueNode env₁).andThen fun value env₂ =>
                  evalHashPairs fuel rest env₂ (hashInsert acc hashed k value)
termination_by (fuel, sizeOf pairs)

/-- `applyFunction` (part_001): a user function gets a fresh enclosed
environment with the parameters bound positionally (`extendFunctionEnv`,
which panics when arguments are missing), its body is evaluated and one
`ReturnValue` layer unwrapped; a builtin is invoked on the raw argument
vector; anything else is the not-a-function error, whose message panics on
a `nil` callee. -/
def applyFunction (fuel : Nat) (fn : Option Object) (args : List (Option Object)) : ROutcome :=
  match fn with
  | some (.FunctionO params body fnEnv) =>
      match extendFunctionEnv params fnEnv args with
      | none => .panicked
      | some extendEnv =>
          match fuel with
          | 0 => .fuelOut
          | fuel' + 1 =>
              (evalBlockStmts fuel' body none extendEnv).toR fun evaluated =>
                .done (unwrapReturnValue evaluated)
  | some (.BuiltinO name) => applyBuiltin name args
  | some o => .done (some (.ErrorO ("不是一个函数: " ++ o.typeStr)))
  | none => .panicked
termination_by (fuel, 0)

end

/-- `evalProgram` (part_001): the `result` argument is the Go local variable
(initially `nil`).  A `ReturnValue` short-circuits *unwrapped* (one layer),
an `Error` short-circuits as itself. -/
def evalProgramStmts (fuel : Nat) (stmts : List Stmt) (result : Option Object) (env : Env) :
    Outcome :=
  match stmts with
  | [] => .done result env
  | s :: rest =>
      match evalStmt fuel s env with
      | .done r env₁ =>
          match r with
          | some (.ReturnValueO v) => .done v env₁
          | some (.ErrorO m) => .done (some (.ErrorO m)) env₁
          | _ => evalProgramStmts fuel rest r env₁
      | .panicked => .panicked
      | .fuelOut => .fuelOut

/-- `Eval` on a `*ast.Program` node: `evalProgram(node.Statements, env)`. -/
def evalProgram (fuel : Nat) (stmts : List Stmt) (env : Env) : Outcome :=
  evalProgramStmts fuel stmts none env

/-!  Theorems.  Each claim of the specification review is settled below; the
helper lemmas carry no claim by themselves. -/

/-- `wrap64` is reduction modulo 2^64 into the `int64` range. -/
theorem wrap64_emod (x : Int) : wrap64 x % 2 ^ 64 = x % 2 ^ 64 := by
  unfold wrap64; omega

/-- `wrap64` lands in the `int64` range. -/
theorem wrap64_range (x : Int) : -2 ^ 63 ≤ wrap64 x ∧ wrap64 x < 2 ^ 63 := by
  unfold wrap64; omega

/-- C9: integer arithmetic (infix `+`, `-`, `*` and prefix `-`) is 64-bit
two's-complement: the produced Integer is congruent to the mathematical
result modulo 2^64, lies in the `int64` range, and no Error is produced on
overflow. -/
theorem C9_integer_arithmetic_wraps (a b : Int)
    (_ha : -2 ^ 63 ≤ a ∧ a < 2 ^ 63) (_hb : -2 ^ 63 ≤ b ∧ b < 2 ^ 63) :
    (∃ r, evalIntegerInfixExpression ("+") (.IntegerO a) (.IntegerO b) =
        .done (some (.IntegerO r)) ∧ r % 2 ^ 64 = (a + b) % 2 ^ 64 ∧
        -2 ^ 63 ≤ r ∧ r < 2 ^ 63) ∧
    (∃ r, evalIntegerInfixExpression ("-") (.IntegerO a) (.IntegerO b) =
        .done (some (.IntegerO r)) ∧ r % 2 ^ 64 = (a - b) % 2 ^ 64 ∧
        -2 ^ 63 ≤ r ∧ r < 2 ^ 63) ∧
    (∃ r, evalIntegerInfixExpression ("*") (.IntegerO a) (.IntegerO b) =
        .done (some (.IntegerO r)) ∧ r % 2 ^ 64 = (a * b) % 2 ^ 64 ∧
        -2 ^ 63 ≤ r ∧ r < 2 ^ 63) ∧
    (∃ r, evalMinusPrefixOperatorExpression (some (.IntegerO a)) =
        .done (some (.IntegerO r)) ∧ r % 2 ^ 64 = (-a) % 2 ^ 64 ∧
        -2 ^ 63 ≤ r ∧ r < 2 ^ 63) := by
  refine ⟨⟨wrap64 (a + b), ?_, wrap64_emod _, wrap64_range _⟩,
          ⟨wrap64 (a - b), ?_, wrap64_emod _, wrap64_range _⟩,
          ⟨wrap64 (a * b), ?_, wrap64_emod _, wrap64_range _⟩,
          ⟨wrap64 (-a), ?_, wrap64_emod _, wrap64_range _⟩⟩ <;>
    simp [evalIntegerInfixExpression, evalMinusPrefixOperatorExpression]

/-- Witness for C9 at an overflowing input: `2^62 + 2^62` wraps. -/
theorem C9_integer_arithmetic_wraps_witness :
    ∃ r, evalIntegerInfixExpression ("+") (.IntegerO (2 ^ 62)) (.IntegerO (2 ^ 62)) =
        .done (some (.IntegerO r)) ∧
        r % 2 ^ 64 = ((2 : Int) ^ 62 + 2 ^ 62) % 2 ^ 64 ∧
        -2 ^ 63 ≤ r ∧ r < 2 ^ 63 :=
  (C9_integer_arithmetic_wraps (2 ^ 62) (2 ^ 62)
    (by norm_num) (by norm_num)).1

/-- C8: indexing an Array with an Integer returns the element in bounds and
`NULL` otherwise; it is always a normal `done` result (no error, no
crash). -/
theorem C8_array_index_in_bounds_or_null (elements : List (Option Object)) (idx : Int) :
    evalIndexExpression (some (.ArrayO elements)) (some (.IntegerO idx)) =
      .done (if 0 ≤ idx ∧ idx < (elements.length : Int)
             then elements.getD idx.toNat (some NULL)
             else some NULL) := by
  rw [evalIndexExpression]
  simp only [Object.typeStr, ARRAY_OBJ, INTEGER_OBJ, HASH_OBJ]
  rw [if_pos (by simp), if_pos (by simp), evalArrayIndexExpression]
  by_cases hb : idx < 0 ∨ idx > (elements.length : Int) - 1
  · rw [if_pos hb, if_neg (by omega : ¬(0 ≤ idx ∧ idx < (elements.length : Int)))]
  · have hlt : idx.toNat < elements.length := by omega
    rw [if_neg hb, if_pos (show 0 ≤ idx ∧ idx < (elements.length : Int) by omega)]
    rcases hget : elements.get? idx.toNat with _ | v
    · rw [List.get?_eq_none] at hget
      omega
    · rw [List.getD_eq_getElem?_getD, ← List.get?_eq_getElem?, hget]
      rfl

/-- The unknown-operator message on two strings, with its literal pieces
folded. -/
theorem unknown_op_string_msg (op : String) :
    "未知的操作: " ++ STRING_OBJ ++ " " ++ op ++ " " ++ STRING_OBJ
      = "未知的操作: STRING " ++ op ++ " STRING" := by
  show ("未知的操作: ") ++ "STRING" ++ " " ++ op ++ " " ++ "STRING" = _
  have h1 : "未知的操作: " ++ "STRING" ++ " " = "未知的操作: STRING " := rfl
  rw [h1, String.append_assoc, String.append_assoc]
  exact (String.append_assoc ("未知的操作: STRING ") op (" STRING")).symm

/-- C7: on two String operands, `+` concatenates and every other infix
operator — `==` and `!=` included — produces the unknown-operator error
(the repository renders the message header `unknown operator:` as
`未知的操作:`, preserving the operator and operand types). -/
theorem C7_string_infix (op : String) (s t : String) :
    evalInfixExpression op (some (.StringO s)) (some (.StringO t)) =
      (if op = "+" then .done (some (.StringO (s ++ t)))
       else .done (some (.ErrorO ("未知的操作: STRING " ++ op ++ " STRING")))) := by
  rw [evalInfixExpression]
  simp only [Object.typeStr, STRING_OBJ, INTEGER_OBJ]
  rw [if_neg (by simp), if_pos (by simp)]
  rw [evalStringInfixExpression]
  by_cases h : op = "+"
  · simp [h]
  · rw [if_pos h, if_neg h]
    have := unknown_op_string_msg op
    simp only [Object.typeStr, STRING_OBJ] at this ⊢
    rw [this]

/-- C6 (code bug): the type-violation error of `last`, `rest` and `push`
names the builtin `first` instead of the one actually called, and the
arity-violation error of `len` names no builtin at all; the structural
information required by the spec is lost. -/
theorem C6_builtin_error_names :
    lastB [some (.IntegerO 0)] =
      .done (some (.ErrorO ("first不支持的参数类型，INTEGER"))) ∧
    restB [some (.BooleanO true)] =
      .done (some (.ErrorO ("first不支持的参数类型，BOOLEAN"))) ∧
    pushB [some (.StringO ("a")), some (.IntegerO 1)] =
      .done (some (.ErrorO ("first不支持的参数类型，STRING"))) ∧
    lenB [] = .done (some (.ErrorO ("入参数量不正确，需要1个，实际0个"))) :=
  ⟨rfl, rfl, rfl, rfl⟩

/-- The FNV-1a step keeps the accumulator a `uint64`. -/
theorem foldl_fnv1aStep_lt (l : List Nat) (h : Nat) (hh : h < 2 ^ 64) :
    l.foldl fnv1aStep h < 2 ^ 64 := by
  induction l generalizing h with
  | nil => exact hh
  | cons b rest ih => exact ih _ (Nat.mod_lt _ (by norm_num))

/-- A string's FNV-1a 64 hash is a `uint64`. -/
theorem stringFnv_lt (s : String) : stringFnv s < 2 ^ 64 := by
  unfold stringFnv fnv1a64
  exact foldl_fnv1aStep_lt _ _ (by norm_num [fnvOffsetBasis])

/-- C5 (counterexample): hash-key equality does not imply value equality for
Strings — there are only 2^64 possible string hash identifiers, so the
FNV-1a 64 hash underlying `String.HashKey` cannot be injective on the
infinitely many strings: two distinct strings share a `HashKey`. -/
theorem C5_hashkey_counterexample :
    ∃ v w : String, hashKeyOf (.StringO v) = hashKeyOf (.StringO w) ∧ v ≠ w := by
  obtain ⟨n, m, hnm, heq⟩ :=
    Finite.exists_ne_map_eq_of_infinite
      (fun n : ℕ =>
        (⟨stringFnv (String.mk (List.replicate n 'a')), stringFnv_lt _⟩ : Fin (2 ^ 64)))
  have hv : stringFnv (String.mk (List.replicate n 'a'))
      = stringFnv (String.mk (List.replicate m 'a')) := by
    simpa using congrArg Fin.val heq
  refine ⟨String.mk (List.replicate n 'a'), String.mk (List.replicate m 'a'), ?_, ?_⟩
  · simp [hashKeyOf, hv]
  · intro hs
    have hdata : List.replicate n 'a' = List.replicate m 'a' := by
      injection hs
    exact hnm (by simpa using congrArg List.length hdata)

/-- C5 (amended): within its type, `HashKey()` equality coincides with value
equality for Integers in the `int64` range and for Booleans; for Strings
only the forward direction holds (equal strings hash equal), equality of
hash keys does not force equality of the strings. -/
theorem C5_hashkey_amended :
    (∀ a b : Int, -2 ^ 63 ≤ a ∧ a < 2 ^ 63 → -2 ^ 63 ≤ b ∧ b < 2 ^ 63 →
        (hashKeyOf (.IntegerO a) = hashKeyOf (.IntegerO b) ↔ a = b)) ∧
    (∀ a b : Bool, hashKeyOf (.BooleanO a) = hashKeyOf (.BooleanO b) ↔ a = b) ∧
    (∀ s t : String, s = t → hashKeyOf (.StringO s) = hashKeyOf (.StringO t)) := by
  refine ⟨fun a b ha hb => ?_, fun a b => ?_, fun s t hst => by rw [hst]⟩
  · constructor
    · intro h
      simp only [hashKeyOf, Option.some.injEq, HashKey.mk.injEq, true_and] at h
      omega
    · rintro rfl; rfl
  · cases a <;> cases b <;> simp [hashKeyOf]

/-- The strconv digit fold never decreases the accumulator (for a positive
base). -/
theorem foldl_digits_ge (base : Nat) (hb : 1 ≤ base) (l : List Char) (n : Nat) :
    n ≤ l.foldl (fun a c => a * base + (c.toNat - 48)) n := by
  induction l generalizing n with
  | nil => exact Nat.le_refl n
  | cons c cs ih =>
      refine Nat.le_trans ?_ (ih (n * base + (c.toNat - 48)))
      have h1 : n ≤ n * base := Nat.le_mul_of_pos_right n (by omega)
      omega

/-- The `ParseUint` digit loop computes exactly the mathematical reading of
the digits, whenever that reading fits in a `uint64`, and errors otherwise:
the cutoff tests reject exactly the folds that leave the `uint64` range. -/
theorem parseUintLoop_eq (base : Nat) (hb : 2 ≤ base) (l : List Char) (n : Nat)
    (hn : n ≤ 2 ^ 64 - 1) :
    parseUintLoop base l n =
      (if l.all (validDigit base) ∧
          l.foldl (fun a c => a * base + (c.toNat - 48)) n ≤ 2 ^ 64 - 1
       then some (l.foldl (fun a c => a * base + (c.toNat - 48)) n)
       else none) := by
  induction l generalizing n with
  | nil =>
      rw [parseUintLoop]
      simp only [List.all_nil, List.foldl_nil, true_and]
      rw [if_pos hn]
  | cons c cs ih =>
      rcases hd : digitVal base c with _ | d
      · have hv : validDigit base c = false := by simp [validDigit, hd]
        rw [parseUintLoop]
        simp [hd, hv]
      · have hval : validDigit base c = true := by simp [validDigit, hd]
        have hdn : d = c.toNat - 48 := by
          unfold digitVal at hd
          split at hd
          · split at hd
            · exact (Option.some.injEq _ _ ▸ hd).symm
            · exact Option.noConfusion hd
          · exact Option.noConfusion hd
        have hfold : (c :: cs).foldl (fun a x => a * base + (x.toNat - 48)) n
            = cs.foldl (fun a x => a * base + (x.toNat - 48)) (n * base + (c.toNat - 48)) := rfl
        rw [parseUintLoop]
        simp only [hd]
        by_cases hcut : n ≥ (2 ^ 64 - 1) / base + 1
        · rw [if_pos hcut]
          have hq := Nat.div_add_mod (2 ^ 64 - 1) base
          have hr : (2 ^ 64 - 1) % base < base := Nat.mod_lt _ (by omega)
          have hmul : ((2 ^ 64 - 1) / base + 1) * base ≤ n * base :=
            Nat.mul_le_mul_right base hcut
          have hmul2 : (2 ^ 64 - 1) < ((2 ^ 64 - 1) / base + 1) * base := by
            have hexp : ((2 ^ 64 - 1) / base + 1) * base
                = base * ((2 ^ 64 - 1) / base) + base := by ring
            omega
          have hge := foldl_digits_ge base (by omega) cs (n * base + (c.toNat - 48))
          rw [if_neg]
          intro hcond
          rw [hfold] at hcond
          omega
        · rw [if_neg hcut]
          show (if n * base + d > 2 ^ 64 - 1 then none
                else parseUintLoop base cs (n * base + d)) = _
          by_cases hover : n * base + d > 2 ^ 64 - 1
          · rw [if_pos hover]
            have hge := foldl_digits_ge base (by omega) cs (n * base + (c.toNat - 48))
            rw [if_neg]
            intro hcond
            rw [hfold] at hcond
            omega
          · rw [if_neg hover, ih (n * base + d) (by omega), hdn, hfold]
            simp [hval]

/-- A decimal digit character is a valid base-10 digit for strconv. -/
theorem validDigit_ten (x : Char) (h1 : 48 ≤ x.toNat) (h2 : x.toNat ≤ 57) :
    validDigit 10 x = true := by
  unfold validDigit digitVal
  rw [if_pos ⟨h1, h2⟩, if_pos (by omega)]
  rfl

/-- For a decimal digit character, base-8 validity is exactly digit value
< 8. -/
theorem validDigit_eight (x : Char) (h1 : 48 ≤ x.toNat) (h2 : x.toNat ≤ 57) :
    validDigit 8 x = decide (x.toNat - 48 < 8) := by
  unfold validDigit digitVal
  rw [if_pos ⟨h1, h2⟩]
  by_cases h : x.toNat - 48 < 8
  · rw [if_pos h]
    simp [h]
  · rw [if_neg h]
    simp [h]

/-- C4 (counterexample): the lexeme `010` — a non-empty string of decimal
digits denoting ten, well within 64 bits — is parsed by
`parseIntegerLiteral` to the IntegerLiteral 8 (octal, by ParseInt's base-0
inference), not to the decimal value 10. -/
theorem C4_integer_literal_counterexample :
    parseIntegerLiteral ("010") = (some (.intLit 8), []) ∧
    natOfDigits 10 ("010".data) = 10 ∧ (8 : Int) ≠ 10 := by
  refine ⟨rfl, rfl, by decide⟩

/-- C4 (amended): `parseIntegerLiteral` follows Go `ParseInt(lexeme, 0, 64)`:
a digit lexeme not of the form `0…` (with further digits) is read in decimal,
yielding the IntegerLiteral when the value is below 2^63 and recording the
(localized) cannot-parse error with no expression otherwise; a multi-digit
lexeme with leading `0` is read in octal, failing on any digit ≥ 8 or an
out-of-range value. -/
theorem C4_integer_literal_amended (c : Char) (cs : List Char)
    (hdig : ∀ x ∈ c :: cs, 48 ≤ x.toNat ∧ x.toNat ≤ 57) :
    (¬(c = '0' ∧ cs ≠ []) →
       parseIntegerLiteral (String.mk (c :: cs)) =
         (if natOfDigits 10 (c :: cs) < 2 ^ 63
          then (some (.intLit (natOfDigits 10 (c :: cs) : Int)), [])
          else (none, ["无法解析 \"" ++ String.mk (c :: cs) ++ "\" 为数字"]))) ∧
    ((c = '0' ∧ cs ≠ []) →
       parseIntegerLiteral (String.mk (c :: cs)) =
         (if (∀ x ∈ cs, x.toNat - 48 < 8) ∧ natOfDigits 8 cs < 2 ^ 63
          then (some (.intLit (natOfDigits 8 cs : Int)), [])
          else (none, ["无法解析 \"" ++ String.mk (c :: cs) ++ "\" 为数字"]))) := by
  constructor
  · intro hnotOctal
    unfold parseIntegerLiteral goParseInt0
    dsimp only
    rw [if_neg hnotOctal]
    dsimp only
    have hall : (c :: cs).all (validDigit 10) = true := by
      rw [List.all_eq_true]
      intro x hx
      exact validDigit_ten x (hdig x hx).1 (hdig x hx).2
    rw [parseUintLoop_eq 10 (by norm_num) (c :: cs) 0 (by norm_num)]
    by_cases hsmall : natOfDigits 10 (c :: cs) < 2 ^ 63
    · rw [if_pos hsmall]
      have hle : (c :: cs).foldl (fun a x => a * 10 + (x.toNat - 48)) 0 ≤ 2 ^ 64 - 1 := by
        have : natOfDigits 10 (c :: cs)
            = (c :: cs).foldl (fun a x => a * 10 + (x.toNat - 48)) 0 := rfl
        omega
      rw [if_pos ⟨hall, hle⟩]
      dsimp only
      have hge : ¬ (c :: cs).foldl (fun a x => a * 10 + (x.toNat - 48)) 0 ≥ 2 ^ 63 := by
        have : natOfDigits 10 (c :: cs)
            = (c :: cs).foldl (fun a x => a * 10 + (x.toNat - 48)) 0 := rfl
        omega
      rw [if_neg hge]
      rfl
    · rw [if_neg hsmall]
      have heq : natOfDigits 10 (c :: cs)
          = (c :: cs).foldl (fun a x => a * 10 + (x.toNat - 48)) 0 := rfl
      by_cases hbig : (c :: cs).foldl (fun a x => a * 10 + (x.toNat - 48)) 0 ≤ 2 ^ 64 - 1
      · rw [if_pos ⟨hall, hbig⟩]
        dsimp only
        rw [if_pos (by omega)]
      · rw [if_neg (by intro hcond; exact hbig hcond.2)]
  · rintro ⟨hc0, hcs⟩
    unfold parseIntegerLiteral goParseInt0
    dsimp only
    rw [if_pos ⟨hc0, hcs⟩]
    dsimp only
    rw [parseUintLoop_eq 8 (by norm_num) cs 0 (by norm_num)]
    have heq : natOfDigits 8 cs = cs.foldl (fun a x => a * 8 + (x.toNat - 48)) 0 := rfl
    by_cases hvalid : ∀ x ∈ cs, x.toNat - 48 < 8
    · have hall : cs.all (validDigit 8) = true := by
        rw [List.all_eq_true]
        intro x hx
        rw [validDigit_eight x (hdig x (List.mem_cons_of_mem c hx)).1
            (hdig x (List.mem_cons_of_mem c hx)).2]
        simpa using hvalid x hx
      by_cases hsmall : natOfDigits 8 cs < 2 ^ 63
      · rw [if_pos ⟨hall, by omega⟩]
        dsimp only
        rw [if_neg (by omega : ¬ cs.foldl
            (fun a x => a * 8 + (x.toNat - 48)) 0 ≥ 2 ^ 63), if_pos ⟨hvalid, hsmall⟩]
        rfl
      · rw [if_neg (by intro h; exact hsmall (by omega) : ¬((∀ x ∈ cs, x.toNat - 48 < 8)
            ∧ natOfDigits 8 cs < 2 ^ 63))]
        by_cases hbig : cs.foldl (fun a x => a * 8 + (x.toNat - 48)) 0 ≤ 2 ^ 64 - 1
        · rw [if_pos ⟨hall, hbig⟩]
          dsimp only
          rw [if_pos (by omega)]
        · rw [if_neg (by intro hcond; exact hbig hcond.2)]
    · have hall : ¬ cs.all (validDigit 8) = true := by
        rw [List.all_eq_true]
        intro hforall
        apply hvalid
        intro x hx
        have := hforall x hx
        rw [validDigit_eight x (hdig x (List.mem_cons_of_mem c hx)).1
            (hdig x (List.mem_cons_of_mem c hx)).2] at this
        simpa using this
      rw [if_neg (by intro hcond; exact hall hcond.1),
        if_neg (by intro hcond; exact hvalid hcond.1)]

/-- Witness for the amended C4 at the lexeme `7`. -/
theorem C4_integer_literal_amended_witness :
    parseIntegerLiteral (String.mk ['7']) = (some (.intLit 7), []) := by
  have h := (C4_integer_literal_amended '7' [] (by decide)).1 (by decide)
  rw [h]
  rfl

/-- Setting a name then reading it back yields the written value. -/
theorem frameGet_frameSet_self (f : Frame) (n : String) (v : Option Object) :
    frameGet (frameSet f n v) n = some v := by
  induction f with
  | nil => simp [frameSet, frameGet]
  | cons p rest ih =>
      obtain ⟨m, w⟩ := p
      by_cases h : m = n
      · subst h
        simp [frameSet, frameGet]
      · simp [frameSet, frameGet, h, ih]

/-- Setting one name leaves every other name's lookup unchanged. -/
theorem frameGet_frameSet_ne (f : Frame) (n m : String) (v : Option Object) (h : n ≠ m) :
    frameGet (frameSet f n v) m = frameGet f m := by
  induction f with
  | nil => simp [frameSet, frameGet, h]
  | cons p rest ih =>
      obtain ⟨k, w⟩ := p
      by_cases hk : k = n
      · subst hk
        simp [frameSet, frameGet, h]
      · by_cases hm : k = m
        · subst hm
          simp [frameSet, frameGet, hk]
        · simp [frameSet, frameGet, hk, hm, ih]

/-- The binding loop panics exactly when there are fewer arguments than
(remaining) parameters. -/
theorem bindParams_eq_none_iff (args : List (Option Object)) (ps : List String) (f : Frame)
    (idx : Nat) :
    bindParams args f ps idx = none ↔ ps ≠ [] ∧ args.length < idx + ps.length := by
  induction ps generalizing f idx with
  | nil => simp [bindParams]
  | cons p rest ih =>
      rcases hg : args.get? idx with _ | a
      · have hlen : args.length ≤ idx := List.get?_eq_none.mp hg
        have hstep : bindParams args f (p :: rest) idx = none := by
          rw [bindParams, hg]
        rw [hstep]
        simp only [List.length_cons, ne_eq, reduceCtorEq, not_false_eq_true, true_and,
          iff_true, true_iff]
        omega
      · have hlt : idx < args.length := by
          by_contra hc
          rw [List.get?_eq_none.mpr (by omega)] at hg
          exact Option.noConfusion hg
        have hstep : bindParams args f (p :: rest) idx
            = bindParams args (frameSet f p a) rest (idx + 1) := by
          rw [bindParams, hg]
        rw [hstep, ih]
        constructor
        · rintro ⟨h1, h2⟩
          refine ⟨by simp, ?_⟩
          simp only [List.length_cons]
          omega
        · rintro ⟨-, h2⟩
          rcases rest with _ | ⟨q, qs⟩
          · simp only [List.length_cons, List.length_nil] at h2
            omega
          · exact ⟨by simp, by simp only [List.length_cons] at h2 ⊢; omega⟩

/-- When enough arguments are supplied (excess allowed) the binding loop
succeeds and binds each parameter to the argument at its position. -/
theorem bindParams_binds (args : List (Option Object)) (ps : List String) :
    ∀ (f : Frame) (idx : Nat), ps.Nodup → idx + ps.length ≤ args.length →
      ∃ f2, bindParams args f ps idx = some f2 ∧
        (∀ i (h : i < ps.length), ∃ a, args.get? (idx + i) = some a ∧
            frameGet f2 (ps.get ⟨i, h⟩) = some a) ∧
        (∀ q, q ∉ ps → frameGet f2 q = frameGet f q) := by
  induction ps with
  | nil =>
      intro f idx _ _
      exact ⟨f, rfl, fun i h => absurd h (Nat.not_lt_zero i), fun q _ => rfl⟩
  | cons p rest ih =>
      intro f idx hnd hlen
      have hlen' : idx + rest.length + 1 ≤ args.length := by
        simp only [List.length_cons] at hlen
        omega
      have hlt : idx < args.length := by omega
      obtain ⟨a, hg⟩ : ∃ a, args.get? idx = some a := by
        rcases hga : args.get? idx with _ | a
        · rw [List.get?_eq_none] at hga
          omega
        · exact ⟨a, rfl⟩
      obtain ⟨hp, hrest⟩ := List.nodup_cons.mp hnd
      obtain ⟨f2, hbind, hlook, hother⟩ := ih (frameSet f p a) (idx + 1) hrest (by omega)
      have hstep : bindParams args f (p :: rest) idx
          = bindParams args (frameSet f p a) rest (idx + 1) := by
        rw [bindParams, hg]
      refine ⟨f2, hstep.trans hbind, ?_, ?_⟩
      · intro i h
        match i with
        | 0 =>
            refine ⟨a, by simpa using hg, ?_⟩
            have h0 : (p :: rest).get ⟨0, h⟩ = p := rfl
            rw [h0, hother p hp, frameGet_frameSet_self]
        | j + 1 =>
            obtain ⟨b, hgb, hfb⟩ := hlook j (by simpa using h)
            refine ⟨b, ?_, ?_⟩
            · rw [show idx + (j + 1) = idx + 1 + j by omega]
              exact hgb
            · simpa [List.get_cons_succ] using hfb
      · intro q hq
        have hqp : q ≠ p := fun hc => hq (hc ▸ List.mem_cons_self p rest)
        have hqr : q ∉ rest := fun hc => hq (List.mem_cons_of_mem p hc)
        rw [hother q hqr, frameGet_frameSet_ne f p q a (Ne.symm hqp)]

/-- C2 (counterexample): calling a one-parameter function with no arguments
panics (Go index out of range in `extendFunctionEnv`) — the evaluator
crashes instead of binding the available positions. -/
theorem C2_apply_function_counterexample :
    applyFunction 1 (some (.FunctionO ["x"] [] [[]])) [] = .panicked ∧
    extendFunctionEnv ["x"] [[]] [] = none := by
  constructor
  · simp [applyFunction, extendFunctionEnv, bindParams]
  · simp [extendFunctionEnv, bindParams]

/-- C2 (amended): function application builds a fresh frame over the
function's captured environment and binds parameters positionally; excess
arguments are ignored; but with fewer arguments than parameters the
unchecked `args[paramIdx]` access panics (a host crash, not a lenient
binding of the available positions). -/
theorem C2_apply_function_amended (params : List String) (fnEnv : Env)
    (args : List (Option Object)) (fuel : Nat) (body : List Stmt) :
    (extendFunctionEnv params fnEnv args = none ↔
      params ≠ [] ∧ args.length < params.length) ∧
    (args.length < params.length →
      applyFunction fuel (some (.FunctionO params body fnEnv)) args = .panicked) ∧
    (params.Nodup → params.length ≤ args.length →
      ∃ f2, extendFunctionEnv params fnEnv args = some (f2 :: fnEnv) ∧
        ∀ i (h : i < params.length), ∃ a, args.get? i = some a ∧
          frameGet f2 (params.get ⟨i, h⟩) = some a) := by
  have hnone : extendFunctionEnv params fnEnv args = none ↔
      params ≠ [] ∧ args.length < params.length := by
    unfold extendFunctionEnv
    rw [Option.map_eq_none']
    simpa using bindParams_eq_none_iff args params [] 0
  refine ⟨hnone, ?_, ?_⟩
  · intro hlt
    have hne : params ≠ [] := by
      rcases params with _ | _
      · simp at hlt
      · simp
    rw [applyFunction, hnone.mpr ⟨hne, hlt⟩]
  · intro hnd hlen
    obtain ⟨f2, hbind, hlook, -⟩ := bindParams_binds args params [] 0 hnd (by omega)
    refine ⟨f2, ?_, ?_⟩
    · unfold extendFunctionEnv
      rw [hbind]
      rfl
    · intro i h
      simpa using hlook i h

/-- Witness for the amended C2: two parameters, three arguments (excess
ignored) bind positionally over the captured environment. -/
theorem C2_apply_function_amended_witness :
    ∃ f2, extendFunctionEnv ["x", "y"] [[]] [some TRUE, some NULL, some (.IntegerO 9)]
        = some (f2 :: [[]]) ∧
      ∀ i (h : i < (["x", "y"] : List String).length),
        ∃ a, ([some TRUE, some NULL, some (.IntegerO 9)] : List (Option Object)).get? i
            = some a ∧
          frameGet f2 ((["x", "y"] : List String).get ⟨i, h⟩) = some a :=
  (C2_apply_function_amended ["x", "y"] [[]] [some TRUE, some NULL, some (.IntegerO 9)]
    0 []).2.2 (by decide) (by decide)

/-- `isError` holds exactly on Error objects. -/
theorem isError_eq_true_iff (r : Option Object) :
    isError r = true ↔ ∃ m, r = some (.ErrorO m) := by
  rcases r with _ | o
  · simp [isError]
  · cases o <;> simp [isError]

/-- A `let` statement completes either with the Go `nil` result or with a
propagated error. -/
theorem evalStmt_letS_shape (fuel : Nat) (n : String) (e : Expr) (env : Env)
    (r : Option Object) (env₁ : Env) :
    evalStmt fuel (.letS n e) env = .done r env₁ → r = none ∨ ∃ m, r = some (.ErrorO m) := by
  intro h
  rw [evalStmt] at h
  rcases hv : evalExpr fuel e env with ⟨val, env'⟩ | - | - <;> rw [hv] at h
  · rw [Outcome.andThen] at h
    by_cases herr : isError val
    · rw [if_pos herr] at h
      obtain ⟨m, rfl⟩ := (isError_eq_true_iff val).mp herr
      cases h
      exact Or.inr ⟨m, rfl⟩
    · rw [if_neg herr] at h
      cases h
      exact Or.inl rfl
  · cases h
  · cases h

/-- A run of `let` statements that completes with the `nil` result never
short-circuits, so further statements simply continue from its final
environment. -/
theorem evalProgramStmts_lets_append (fuel : Nat) (ss : List Stmt) :
    ∀ (rest : List Stmt) (env env₁ : Env),
      (∀ s ∈ ss, ∃ nm ex, s = Stmt.letS nm ex) →
      evalProgramStmts fuel ss none env = .done none env₁ →
      evalProgramStmts fuel (ss ++ rest) none env = evalProgramStmts fuel rest none env₁ := by
  induction ss with
  | nil =>
      intro rest env env₁ _ h
      rw [evalProgramStmts] at h
      cases h
      rw [List.nil_append]
  | cons s ss ih =>
      intro rest env env₁ hlets h
      obtain ⟨nm, ex, rfl⟩ := hlets _ (List.mem_cons_self s ss)
      rw [List.cons_append, evalProgramStmts]
      rw [evalProgramStmts] at h
      rcases hs : evalStmt fuel (.letS nm ex) env with ⟨r, env'⟩ | - | -
      · rw [hs] at h
        rcases evalStmt_letS_shape fuel nm ex env r env' hs with rfl | ⟨m, rfl⟩
        · dsimp only at h ⊢
          exact ih rest env' env₁ (fun t ht => hlets t (List.mem_cons_of_mem _ ht)) h
        · dsimp only at h
          cases h
      · rw [hs] at h
        dsimp only at h
        cases h
      · rw [hs] at h
        dsimp only at h
        cases h

/-- C10: evaluating an empty Program, or a Program of `let` statements (the
last executed statement being a `let`), returns the host-level `nil`, which
is not any Object — in particular not `NULL`. -/
theorem C10_program_nil_result :
    (∀ fuel env, evalProgram fuel [] env = .done none env) ∧
    (∀ (fuel : Nat) (env env₁ env₂ : Env) (ss : List Stmt) (n : String) (e : Expr)
        (v : Object),
      (∀ s ∈ ss, ∃ nm ex, s = Stmt.letS nm ex) →
      evalProgramStmts fuel ss none env = .done none env₁ →
      evalExpr fuel e env₁ = .done (some v) env₂ →
      isError (some v) = false →
      evalProgram fuel (ss ++ [.letS n e]) env = .done none (envSet env₂ n (some v))) ∧
    (∀ (env : Env) (o : Object), Outcome.done none env ≠ Outcome.done (some o) env) := by
  refine ⟨fun fuel env => rfl, ?_, fun env o h => by cases h⟩
  intro fuel env env₁ env₂ ss n e v hlets hss he herr
  rw [evalProgram, evalProgramStmts_lets_append fuel ss [.letS n e] env env₁ hlets hss]
  have hstmt : evalStmt fuel (.letS n e) env₁ = .done none (envSet env₂ n (some v)) := by
    rw [evalStmt, he, Outcome.andThen, if_neg (by rw [herr]; simp)]
  rw [evalProgramStmts, hstmt]
  dsimp only
  rw [evalProgramStmts]

/-- Witness for C10: `let x = 3;` evaluates to the host `nil`. -/
theorem C10_program_nil_result_witness :
    evalProgram 0 [Stmt.letS ("x") (.intLit 3)] newEnvironment
      = .done none (envSet newEnvironment ("x") (some (.IntegerO 3))) := by
  have h := C10_program_nil_result.2.1 0 newEnvironment newEnvironment newEnvironment
    [] ("x") (.intLit 3) (.IntegerO 3) (by simp) (by rw [evalProgramStmts]) (by rw [evalExpr])
    rfl
  simpa using h

/-- C3 (counterexample): the final result of a Program evaluation can be a
`ReturnValue`: a return statement whose operand — an if-expression whose
block returns — itself evaluates to a `ReturnValue` gets doubly wrapped, and
`evalProgram` unwraps only one layer. -/
theorem C3_program_returnvalue_counterexample :
    evalProgram 0 [.returnS (.ifE (.boolLit true) [.returnS (.intLit 5)] none)]
        newEnvironment
      = .done (some (.ReturnValueO (some (.IntegerO 5)))) newEnvironment := by
  simp [evalProgram, evalProgramStmts, evalStmt, evalExpr, evalBlockStmts, isError,
    isTruthy, nativeBoolToBooleanObject, TRUE, Outcome.andThen, Outcome.step,
    isReturnOrError]

/-- C3 (amended): a block evaluates its statements in order and yields the
last statement's value; a `ReturnValue` or `Error` produced mid-block is
returned still wrapped, so enclosing blocks short-circuit too; the top-level
Program evaluation unwraps exactly one `ReturnValue` layer (so its result is
a `ReturnValue` only in the doubly-wrapped situation above). -/
theorem C3_block_return_wrapping (fuel : Nat) (s : Stmt) (rest : List Stmt)
    (r0 : Option Object) (env env₁ : Env) :
    (∀ v, evalStmt fuel s env = .done (some (.ReturnValueO v)) env₁ →
        evalBlockStmts fuel (s :: rest) r0 env = .done (some (.ReturnValueO v)) env₁ ∧
        evalProgramStmts fuel (s :: rest) r0 env = .done v env₁) ∧
    (∀ m, evalStmt fuel s env = .done (some (.ErrorO m)) env₁ →
        evalBlockStmts fuel (s :: rest) r0 env = .done (some (.ErrorO m)) env₁ ∧
        evalProgramStmts fuel (s :: rest) r0 env = .done (some (.ErrorO m)) env₁) ∧
    (∀ r, evalStmt fuel s env = .done r env₁ → isReturnOrError r = false →
        evalBlockStmts fuel (s :: rest) r0 env = evalBlockStmts fuel rest r env₁ ∧
        evalProgramStmts fuel (s :: rest) r0 env = evalProgramStmts fuel rest r env₁) ∧
    (evalBlockStmts fuel [] r0 env = .done r0 env ∧
     evalProgramStmts fuel [] r0 env = .done r0 env) := by
  refine ⟨?_, ?_, ?_, by rw [evalBlockStmts], by rw [evalProgramStmts]⟩
  · intro v hs
    rw [evalBlockStmts, evalProgramStmts, hs]
    constructor
    · rw [Outcome.step]
      simp [isReturnOrError]
    · dsimp only
  · intro m hs
    rw [evalBlockStmts, evalProgramStmts, hs]
    constructor
    · rw [Outcome.step]
      simp [isReturnOrError]
    · dsimp only
  · intro r hs hnot
    rw [evalBlockStmts, evalProgramStmts, hs]
    constructor
    · rw [Outcome.step, if_neg (by rw [hnot]; simp)]
    · rcases r with _ | o
      · dsimp only
      · cases o <;> simp [isReturnOrError] at hnot ⊢

/-- Witness for the amended C3: `return 5;` short-circuits a block still
wrapped. -/
theorem C3_block_return_wrapping_witness :
    evalBlockStmts 0 [.returnS (.intLit 5)] none newEnvironment
      = .done (some (.ReturnValueO (some (.IntegerO 5)))) newEnvironment := by
  have h := (C3_block_return_wrapping 0 (.returnS (.intLit 5)) [] none newEnvironment
    newEnvironment).1 (some (.IntegerO 5))
    (by rw [evalStmt, evalExpr, Outcome.andThen]; rfl)
  exact h.1

/-- Inserting a pair makes it the one found under its hash key (later
overwrites earlier). -/
theorem hashFind_hashInsert_self (ps : List (HashKey × Object × Option Object))
    (hk : HashKey) (k : Object) (v : Option Object) :
    hashFind (hashInsert ps hk k v) hk = some (k, v) := by
  induction ps with
  | nil => simp [hashInsert, hashFind]
  | cons p rest ih =>
      obtain ⟨k0, q⟩ := p
      by_cases h : k0 = hk
      · subst h
        simp [hashInsert, hashFind]
      · simp [hashInsert, hashFind, h, ih]

/-- A successful pair-map construction is insensitive to splitting: the
remaining pairs continue from the environment and map reached so far. -/
theorem evalHashPairs_append (fuel : Nat) (l1 : List (Expr × Expr)) :
    ∀ (l2 : List (Expr × Expr)) (env : Env) (acc m : List (HashKey × Object × Option Object))
      (env₁ : Env),
      evalHashPairs fuel l1 env acc = .done (some (.HashO m)) env₁ →
      evalHashPairs fuel (l1 ++ l2) env acc = evalHashPairs fuel l2 env₁ m := by
  induction l1 with
  | nil =>
      intro l2 env acc m env₁ h
      rw [evalHashPairs] at h
      cases h
      rw [List.nil_append]
  | cons p rest ih =>
      obtain ⟨kE, vE⟩ := p
      intro l2 env acc m env₁ h
      rw [evalHashPairs] at h
      rw [List.cons_append, evalHashPairs]
      generalize hk : evalExpr fuel kE env = outKey at h ⊢
      rcases outKey with ⟨key, envk⟩ | - | -
      · rw [Outcome.andThen] at h ⊢
        by_cases herr : isError key
        · rw [if_pos herr] at h
          obtain ⟨msg, rfl⟩ := (isError_eq_true_iff key).mp herr
          cases h
        · rw [if_neg herr] at h ⊢
          rcases key with _ | k
          · dsimp only at h
            cases h
          · dsimp only at h ⊢
            generalize hhk : hashKeyOf k = outHK at h ⊢
            rcases outHK with _ | hashed
            · dsimp only at h
              cases h
            · dsimp only at h ⊢
              generalize hv : evalExpr fuel vE envk = outVal at h ⊢
              rcases outVal with ⟨value, envv⟩ | - | -
              · rw [Outcome.andThen] at h ⊢
                by_cases herr2 : isError value
                · rw [if_pos herr2] at h
                  obtain ⟨msg, rfl⟩ := (isError_eq_true_iff value).mp herr2
                  cases h
                · rw [if_neg herr2] at h ⊢
                  exact ih l2 envv (hashInsert acc hashed k value) m env₁ h
              · rw [Outcome.andThen] at h
                cases h
              · rw [Outcome.andThen] at h
                cases h
      · rw [Outcome.andThen] at h
        cases h
      · rw [Outcome.andThen] at h
        cases h

/-- C1 (counterexample): the hash literal is not evaluated in source order
and its value is not a function of the literal and environment alone: the
same pair set (true maps to 1, true maps to 2), iterated in its two possible
Go map orders, produces two different Hash values. -/
theorem C1_hash_order_counterexample :
    List.Perm [((Expr.boolLit true), Expr.intLit 1), ((Expr.boolLit true), Expr.intLit 2)]
      [((Expr.boolLit true), Expr.intLit 2), ((Expr.boolLit true), Expr.intLit 1)] ∧
    evalHashPairs 0 [((Expr.boolLit true), Expr.intLit 1), ((Expr.boolLit true), Expr.intLit 2)]
        newEnvironment []
      ≠ evalHashPairs 0 [((Expr.boolLit true), Expr.intLit 2), ((Expr.boolLit true), Expr.intLit 1)]
        newEnvironment [] := by
  constructor
  · exact List.Perm.swap _ _ _
  · have h1 : evalHashPairs 0
        [((Expr.boolLit true), Expr.intLit 1), ((Expr.boolLit true), Expr.intLit 2)]
        newEnvironment []
        = .done (some (.HashO [(⟨BOOLEAN_OBJ, 1⟩, .BooleanO true, some (.IntegerO 2))]))
          newEnvironment := by
      simp [evalHashPairs, evalExpr, Outcome.andThen, isError, nativeBoolToBooleanObject,
        TRUE, hashKeyOf, hashInsert]
    have h2 : evalHashPairs 0
        [((Expr.boolLit true), Expr.intLit 2), ((Expr.boolLit true), Expr.intLit 1)]
        newEnvironment []
        = .done (some (.HashO [(⟨BOOLEAN_OBJ, 1⟩, .BooleanO true, some (.IntegerO 1))]))
          newEnvironment := by
      simp [evalHashPairs, evalExpr, Outcome.andThen, isError, nativeBoolToBooleanObject,
        TRUE, hashKeyOf, hashInsert]
    rw [h1, h2]
    intro hcontra
    simp at hcontra

/-- C1 (amended): relative to a given iteration order of the pair map, pairs
are evaluated key-then-value and each successfully evaluated pair overwrites
any earlier entry with the same `HashKey`: appending a final pair to the
order makes its value the one stored under its key.  The result is therefore
a function of the literal, the environment, and the map iteration order —
not of the literal and environment alone. -/
theorem C1_hash_literal_amended (fuel : Nat) (pre : List (Expr × Expr)) (k v : Expr)
    (env env₁ env₂ env₃ : Env) (acc m : List (HashKey × Object × Option Object))
    (kv : Object) (hk : HashKey) (vv : Option Object) :
    evalHashPairs fuel pre env acc = .done (some (.HashO m)) env₁ →
    evalExpr fuel k env₁ = .done (some kv) env₂ →
    isError (some kv) = false →
    hashKeyOf kv = some hk →
    evalExpr fuel v env₂ = .done vv env₃ →
    isError vv = false →
    evalHashPairs fuel (pre ++ [(k, v)]) env acc =
      .done (some (.HashO (hashInsert m hk kv vv))) env₃ ∧
    hashFind (hashInsert m hk kv vv) hk = some (kv, vv) := by
  intro hpre hkey hkerr hhk hval hverr
  refine ⟨?_, hashFind_hashInsert_self m hk kv vv⟩
  rw [evalHashPairs_append fuel pre [(k, v)] env acc m env₁ hpre]
  rw [evalHashPairs, hkey, Outcome.andThen, if_neg (by rw [hkerr]; simp)]
  dsimp only
  rw [hhk]
  dsimp only
  rw [hval, Outcome.andThen, if_neg (by rw [hverr]; simp)]
  rw [evalHashPairs]

/-- Witness for the amended C1: in the order `(true,1)` then `(true,2)` the
second pair wins. -/
theorem C1_hash_literal_amended_witness :
    evalHashPairs 0 [((Expr.boolLit true), Expr.intLit 1), ((Expr.boolLit true), Expr.intLit 2)]
        newEnvironment []
      = .done (some (.HashO (hashInsert
          [(⟨BOOLEAN_OBJ, 1⟩, .BooleanO true, some (.IntegerO 1))]
          ⟨BOOLEAN_OBJ, 1⟩ (.BooleanO true) (some (.IntegerO 2))))) newEnvironment ∧
    hashFind (hashInsert [(⟨BOOLEAN_OBJ, 1⟩, .BooleanO true, some (.IntegerO 1))]
        ⟨BOOLEAN_OBJ, 1⟩ (.BooleanO true) (some (.IntegerO 2))) ⟨BOOLEAN_OBJ, 1⟩
      = some (.BooleanO true, some (.IntegerO 2)) := by
  have h := C1_hash_literal_amended 0 [((Expr.boolLit true), Expr.intLit 1)]
    (.boolLit true) (.intLit 2) newEnvironment newEnvironment newEnvironment newEnvironment
    [] [(⟨BOOLEAN_OBJ, 1⟩, .BooleanO true, some (.IntegerO 1))]
    (.BooleanO true) ⟨BOOLEAN_OBJ, 1⟩ (some (.IntegerO 2))
    (by simp [evalHashPairs, evalExpr, Outcome.andThen, isError, nativeBoolToBooleanObject,
      TRUE, hashKeyOf, hashInsert])
    (by simp [evalExpr, nativeBoolToBooleanObject, TRUE]) rfl
    (by simp [hashKeyOf]) (by simp [evalExpr]) rfl
  simpa using h

/-- Witness for the Integer part of the amended C5 at `-7`. -/
theorem C5_hashkey_amended_witness :
    hashKeyOf (.IntegerO (-7)) = hashKeyOf (.IntegerO (-7)) ↔ (-7 : Int) = -7 :=
  C5_hashkey_amended.1 (-7) (-7) (by norm_num) (by norm_num)

end Interp
